import Mathlib

/-!
Shallow embedding of `common/messages/eom.go` (package `messages` of the
factomd repository): the EOM (minute-close) message, its binary codec, and
its leader/follower execution logic, together with models of the external
collaborators the file uses (`primitives`, `constants`, `interfaces`).

Byte strings are `List Nat` (each element a byte value); Go's fixed-width
integers are `Nat` with explicit bounds or `% 2^w` where overflow matters.
Go panics that `eom.go` recovers (the `defer`/`recover` in
`UnmarshalBinaryData`) are modelled as returned `Except.error` values; Go
panics that are *not* recovered (in `FollowerExecute`) are modelled as a
`fatal` execution outcome.  Side effects on the node state (queue sends,
ledger notifications, replay invocations) are modelled as an emitted event
trace, in program order.
-/

/-- Big-endian byte encoding of `n` in exactly `k` bytes (the value taken
mod `256 ^ k`), as produced by `encoding/binary.BigEndian`. -/
def beBytes : Nat → Nat → List Nat
  | _, 0 => []
  | n, k + 1 => beBytes (n / 256) k ++ [n % 256]

/-- Big-endian value of a byte string, as read by `binary.BigEndian.Uint32`
and friends. -/
def beVal (l : List Nat) : Nat :=
  l.foldl (fun a b => a * 256 + b) 0

/-- Returns `true` exactly when an `Except` value is a success. -/
def exceptIsOk {ε α : Type} : Except ε α → Bool
  | Except.ok _ => true
  | Except.error _ => false

namespace primitives

/-- Modelled from the spec: `primitives`' timestamp type is not under
`src/`; the spec describes it as a wall-clock marker "with its own fixed
binary encoding", "opaque, self-delimiting".  Modelled as a millisecond
count marshalled as a fixed 6-byte big-endian encoding. -/
structure Timestamp where
  millis : Nat
deriving DecidableEq

/-- Modelled from the spec: the timestamp's own codec, encode direction. -/
def Timestamp.MarshalBinary (t : Timestamp) : List Nat :=
  beBytes t.millis 6

/-- Modelled from the spec: the timestamp's own codec, decode direction;
consumes its fixed width and fails on truncated input. -/
def Timestamp.UnmarshalBinaryData (data : List Nat) :
    Except String (Timestamp × List Nat) :=
  if data.length < 6 then Except.error "Timestamp: truncated input"
  else Except.ok (⟨beVal (data.take 6)⟩, data.drop 6)

/-- Modelled from the spec: `primitives.Hash` is not under `src/`; the spec
describes the identity hash as an "opaque fixed-length byte identifier"
with a "fixed-length hash encoding" (32 bytes). -/
structure Hash where
  bytes : List Nat
deriving DecidableEq

/-- Modelled from the spec: fixed-length hash codec, encode direction
(`primitives.Hash.MarshalBinary` never fails on a concrete hash value). -/
def Hash.MarshalBinary (h : Hash) : List Nat := h.bytes

/-- Modelled from the spec: fixed-length hash codec, decode direction;
consumes exactly 32 bytes, fails on truncated input. -/
def Hash.UnmarshalBinaryData (data : List Nat) :
    Except String (Hash × List Nat) :=
  if data.length < 32 then Except.error "Hash: truncated input"
  else Except.ok (⟨data.take 32⟩, data.drop 32)

/-- Modelled from the spec: `primitives.Signature` is not under `src/`; the
spec describes a detached signature with a self-delimiting wire form
(public key plus signature bytes, 96 bytes in all). -/
structure Signature where
  bytes : List Nat
deriving DecidableEq

/-- Modelled from the spec: signature codec, encode direction. -/
def Signature.MarshalBinary (s : Signature) : List Nat := s.bytes

/-- Modelled from the spec: signature codec, decode direction; consumes its
fixed width, fails on truncated input. -/
def Signature.UnmarshalBinaryData (data : List Nat) :
    Except String (Signature × List Nat) :=
  if data.length < 96 then Except.error "Signature: truncated input"
  else Except.ok (⟨data.take 96⟩, data.drop 96)

/-- Modelled from the spec: `primitives.Sha` is not under `src/`; the spec
needs only that the hash "is a pure function of the canonical payload;
equal payloads imply equal hash".  Modelled as a deterministic 32-byte
digest of the input. -/
def Sha (data : List Nat) : Hash :=
  ⟨(List.range 32).map
    (fun i => data.foldl (fun a b => (a * 31 + b + i + 1) % 256) (i + 1))⟩

end primitives

namespace constants

/-- Modelled from the spec: the message-type discriminant for the
minute-close message (`constants.EOM_MSG` is not under `src/`); its exact
value is irrelevant, only that it is a fixed single-byte tag. -/
def EOM_MSG : Nat := 1

/-- Modelled from the spec: the fixed enumerated network profile "main". -/
def NETWORK_MAIN : Nat := 0

/-- Modelled from the spec: the fixed enumerated network profile "test". -/
def NETWORK_TEST : Nat := 1

/-- Modelled from the spec: the fixed enumerated network profile "local". -/
def NETWORK_LOCAL : Nat := 2

/-- Modelled from the spec: the distinguished "server" capacity value
returned by `GetServerState` (`constants.SERVER_MODE` is not under
`src/`). -/
def SERVER_MODE : Nat := 1

end constants

namespace interfaces

/-- Modelled from the spec: a message held in the process list.  The spec
uses only its iteration contract: each held message has its own
follower-execution, which either succeeds or returns an error.  `id`
identifies the message so the replay order is observable in the trace. -/
structure IMsg where
  id : Nat
  followerResult : Option String
deriving DecidableEq

/-- Modelled from the spec: the Node State Facade consumed by message
execution (`interfaces.IState` is not under `src/`): process-list slot 0,
network profile number, server state, the previous directory block's
content key, and the node's signing key. -/
structure IState where
  ProcessListSlot0 : List IMsg
  NetworkNumber : Nat
  ServerState : Nat
  PreviousDirectoryBlockKeyMR : primitives.Hash
  SigningKey : Nat
deriving DecidableEq

end interfaces

namespace messages

/-- The EOM (minute-close) message, from `type EOM struct` in `eom.go`.
`Timestamp` is a concrete value type (zero value `0`); `IdentityChainID`
and `Signature` are interface-valued fields, so possibly nil (`none`);
`hash` is the unexported lazily-cached hash, nil until first computed. -/
structure EOM where
  Timestamp : primitives.Timestamp
  Minute : Nat
  DirectoryBlockHeight : Nat
  IdentityChainID : Option primitives.Hash
  Signature : Option primitives.Signature
  hash : Option primitives.Hash
deriving DecidableEq

/-- Go method `EOM.MarshalForSignature`: type tag, timestamp, minute byte, 4-byte
big-endian height, identity hash, in that order; fails (in Go, a nil
interface method call) when the identity hash is nil. -/
def EOM.MarshalForSignature (m : EOM) : Except String (List Nat) :=
  match m.IdentityChainID with
  | none => Except.error "nil IdentityChainID"
  | some h =>
    Except.ok ([constants.EOM_MSG % 256] ++ m.Timestamp.MarshalBinary
      ++ [m.Minute % 256] ++ beBytes m.DirectoryBlockHeight 4
      ++ h.MarshalBinary)

/-- Go method `EOM.GetSignature`. -/
def EOM.GetSignature (m : EOM) : Option primitives.Signature :=
  m.Signature

/-- Go method `EOM.MarshalBinary`: the pre-signature payload, with the signature
bytes appended when a signature is present. -/
def EOM.MarshalBinary (m : EOM) : Except String (List Nat) :=
  match m.MarshalForSignature with
  | Except.error e => Except.error e
  | Except.ok resp =>
    match m.GetSignature with
    | some sg => Except.ok (resp ++ sg.MarshalBinary)
    | none => Except.ok resp

/-- Go method `EOM.GetHash`: the cached hash when already computed, otherwise the SHA
of the pre-signature payload (the Go method panics when the payload cannot
be marshalled, modelled as the error result; the write-back into the cache
field is invisible to the claims, which only read the returned value). -/
def EOM.GetHash (m : EOM) : Except String primitives.Hash :=
  match m.hash with
  | some hh => Except.ok hh
  | none =>
    match m.MarshalForSignature with
    | Except.error e => Except.error e
    | Except.ok d => Except.ok (primitives.Sha d)

/-- Go method `EOM.UnmarshalBinaryData`.  The method slices `data[1:]`, decodes
the timestamp, reads the minute byte, rejects a minute outside `[0,10)`
(the `< 0` arm of the Go test is vacuous for a byte), reads the 4-byte
big-endian height, the identity hash, and — only when bytes remain — a
signature.  Index panics are recovered by its `defer` into returned
errors, modelled here as explicit length guards.  On success it returns
`data`, the untouched original input. -/
def EOM.UnmarshalBinaryData (data : List Nat) :
    Except String (EOM × List Nat) :=
  if data.length < 1 then
    Except.error "Error unmarshalling: runtime error: slice bounds out of range"
  else
    match primitives.Timestamp.UnmarshalBinaryData (data.drop 1) with
    | Except.error e => Except.error e
    | Except.ok (ts, nd1) =>
      if nd1.length < 1 then
        Except.error "Error unmarshalling: runtime error: index out of range"
      else
        if 10 ≤ nd1.headD 0 then Except.error "Minute number is out of range"
        else if nd1.tail.length < 4 then
          Except.error "Error unmarshalling: runtime error: slice bounds out of range"
        else
          match primitives.Hash.UnmarshalBinaryData (nd1.tail.drop 4) with
          | Except.error e => Except.error e
          | Except.ok (hsh, nd4) =>
            if 0 < nd4.length then
              match primitives.Signature.UnmarshalBinaryData nd4 with
              | Except.error e => Except.error e
              | Except.ok (sg, _) =>
                Except.ok ({ Timestamp := ts, Minute := nd1.headD 0,
                             DirectoryBlockHeight := beVal (nd1.tail.take 4),
                             IdentityChainID := some hsh,
                             Signature := some sg, hash := none }, data)
            else
              Except.ok ({ Timestamp := ts, Minute := nd1.headD 0,
                           DirectoryBlockHeight := beVal (nd1.tail.take 4),
                           IdentityChainID := some hsh,
                           Signature := none, hash := none }, data)

/-- Go method `EOM.Validate`: unconditionally `1` (valid). -/
def EOM.Validate (_m : EOM) (_s : interfaces.IState) : Int := 1

/-- Go method `EOM.Leader`: unconditionally `false`. -/
def EOM.Leader (_m : EOM) (_s : interfaces.IState) : Bool := false

/-- Go method `EOM.Follower`: unconditionally `true`. -/
def EOM.Follower (_m : EOM) (_s : interfaces.IState) : Bool := true

/-- Go function `NewEOM`: allocates a zero-valued EOM and sets only the minute (the Go
conversion `byte(minute)` truncates mod 256).  The surrounding comment in
the source admits construction "needs information from the state … Right
now I am ignoring all of that": the timestamp stays at its zero value and
the identity hash stays nil. -/
def NewEOM (_state : interfaces.IState) (minute : Int) : EOM :=
  { Timestamp := ⟨0⟩, Minute := (minute % 256).toNat,
    DirectoryBlockHeight := 0, IdentityChainID := none,
    Signature := none, hash := none }

/-- Modelled from the spec: the Directory-Block-Signature message
constructed inside `EOM.LeaderExecute` (its own file is not under `src/`);
the spec gives only its contract: it carries the previous directory
block's content key and an attached signature. -/
structure DirectoryBlockSignature where
  DirectoryBlockKeyMR : Option primitives.Hash
  Signature : Option primitives.Signature
deriving DecidableEq

/-- Modelled from the spec: the DBS canonical payload — a deterministic
serialization of its signed fields (the directory block content key it
carries); the full DBS body is out of the spec's scope. -/
def DirectoryBlockSignature.MarshalForSignature
    (d : DirectoryBlockSignature) : List Nat :=
  match d.DirectoryBlockKeyMR with
  | some h => h.MarshalBinary
  | none => []

/-- Modelled from the spec: `NewDirectoryBlockSignature` — a fresh DBS with
no fields set. -/
def NewDirectoryBlockSignature : DirectoryBlockSignature :=
  { DirectoryBlockKeyMR := none, Signature := none }

/-- Modelled from the spec: `SignSignable` (not under `src/`) — signing
computes the canonical payload and produces a detached signature over it
with the node's key.  The modelled key always produces a signature
(ed25519-style signing over an already-marshalled payload is total; the
source discards the error return of `DBM.Sign`). -/
def SignSignable (key : Nat) (payload : List Nat) : primitives.Signature :=
  ⟨beBytes key 32 ++ (primitives.Sha payload).bytes
    ++ (primitives.Sha (beBytes key 32 ++ payload)).bytes⟩

/-- Modelled from the spec: signature verification — the stored signature
checks out against the payload exactly when it is the node key's signature
over that payload. -/
def VerifySig (key : Nat) (payload : List Nat)
    (sg : primitives.Signature) : Bool :=
  decide (sg = SignSignable key payload)

/-- Observable side effects of message execution on the node state, in
program order: a replay invocation of a held message, the ledger's
end-of-period notification, end-of-block processing, a send of this EOM to
the leader-input queue, and sends of a DBS to the outbound network queue
and the node's own inbound queue. -/
inductive Event where
  | replayed (id : Nat)
  | endOfPeriod (minute : Nat)
  | processEndOfBlock
  | leaderIn (m : EOM)
  | networkOut (d : DirectoryBlockSignature)
  | inMsg (d : DirectoryBlockSignature)
deriving DecidableEq

/-- How an execution ends: a normal return (the Go method returns `nil`)
or an unrecovered panic, which is process-fatal. -/
inductive ExecOutcome where
  | ok
  | fatal (msg : String)
deriving DecidableEq

/-- The replay loop at the top of `EOM.FollowerExecute`: each message in
process-list slot 0 is run through its own follower-execution in list
order; the first failure panics (`"Failed to build state in EOM: " + err`)
and nothing after it runs. -/
def ReplayAll : List interfaces.IMsg → List Event × ExecOutcome
  | [] => ([], ExecOutcome.ok)
  | pm :: rest =>
    match pm.followerResult with
    | some e =>
      ([Event.replayed pm.id],
       ExecOutcome.fatal ("Failed to build state in EOM: " ++ e))
    | none =>
      let r := ReplayAll rest
      (Event.replayed pm.id :: r.1, r.2)

/-- Go method `EOM.FollowerExecute`: replay slot 0, notify the factoid ledger that
the minute ended, dispatch on the network number (main/test/unknown panic,
local is a no-op), then on minute 9 process end-of-block and — in server
mode — enqueue this same message on the leader-input queue. -/
def EOM.FollowerExecute (m : EOM) (s : interfaces.IState) :
    List Event × ExecOutcome :=
  let r := ReplayAll s.ProcessListSlot0
  match r.2 with
  | ExecOutcome.fatal e => (r.1, ExecOutcome.fatal e)
  | ExecOutcome.ok =>
    let evs := r.1 ++ [Event.endOfPeriod m.Minute]
    if s.NetworkNumber = constants.NETWORK_MAIN then
      (evs, ExecOutcome.fatal "Not implemented yet")
    else if s.NetworkNumber = constants.NETWORK_TEST then
      (evs, ExecOutcome.fatal "Not implemented yet")
    else if s.NetworkNumber = constants.NETWORK_LOCAL then
      if m.Minute = 9 then
        if s.ServerState = constants.SERVER_MODE then
          (evs ++ [Event.processEndOfBlock, Event.leaderIn m],
           ExecOutcome.ok)
        else (evs ++ [Event.processEndOfBlock], ExecOutcome.ok)
      else (evs, ExecOutcome.ok)
    else
      (evs, ExecOutcome.fatal
        ("Not implemented yet: Network Number " ++ toString s.NetworkNumber))

/-- Go method `EOM.LeaderExecute`: build a fresh DBS, set its key to the previous
directory block's content key, sign it with the node's key, send it to the
outbound network queue and then to the node's own inbound queue, and
return `nil`. -/
def EOM.LeaderExecute (_m : EOM) (s : interfaces.IState) :
    List Event × ExecOutcome :=
  let dbm1 : DirectoryBlockSignature :=
    { NewDirectoryBlockSignature with
      DirectoryBlockKeyMR := some s.PreviousDirectoryBlockKeyMR }
  let dbm2 : DirectoryBlockSignature :=
    { dbm1 with
      Signature := some (SignSignable s.SigningKey dbm1.MarshalForSignature) }
  ([Event.networkOut dbm2, Event.inMsg dbm2], ExecOutcome.ok)

end messages

/-- A concrete 32-byte identity hash, for evaluating the codec. -/
def hEx : primitives.Hash := ⟨List.replicate 32 2⟩

/-- A concrete 96-byte signature value, for evaluating the codec. -/
def sgEx : primitives.Signature := ⟨List.replicate 96 5⟩

/-- A concrete unsigned minute-close message. -/
def mEx : messages.EOM :=
  { Timestamp := ⟨123⟩, Minute := 3, DirectoryBlockHeight := 7,
    IdentityChainID := some hEx, Signature := none, hash := none }

/-- A concrete signed minute-close message. -/
def mSigEx : messages.EOM :=
  { mEx with Signature := some sgEx }

/-- The wire bytes of `mEx` (its pre-signature payload). -/
def pbEx : List Nat := (mEx.MarshalForSignature).toOption.getD []

/-- The wire bytes of `mSigEx` (payload plus signature). -/
def encSigEx : List Nat := (mSigEx.MarshalBinary).toOption.getD []

/-- The bytes of `encSigEx` followed by bytes not part of the message. -/
def dataJunkEx : List Nat := encSigEx ++ [7, 7, 7]

/-- A concrete process-list message whose replay succeeds. -/
def msgA : interfaces.IMsg := ⟨1, none⟩

/-- A second process-list message whose replay succeeds. -/
def msgB : interfaces.IMsg := ⟨2, none⟩

/-- A process-list message whose replay fails. -/
def msgBad : interfaces.IMsg := ⟨3, some "boom"⟩

/-- A local-network server-mode state whose replays all succeed. -/
def sLocalEx : interfaces.IState :=
  { ProcessListSlot0 := [msgA, msgB], NetworkNumber := 2, ServerState := 1,
    PreviousDirectoryBlockKeyMR := hEx, SigningKey := 9 }

/-- A main-network state whose replays all succeed. -/
def sMainEx : interfaces.IState :=
  { sLocalEx with NetworkNumber := 0 }

/-- A local-network state holding a failing replay message. -/
def sBadReplayEx : interfaces.IState :=
  { sLocalEx with ProcessListSlot0 := [msgA, msgBad, msgB] }

/-- A concrete minute-9 message (signed), for the last-minute trigger. -/
def mNineEx : messages.EOM :=
  { mSigEx with Minute := 9 }

theorem beBytes_length (n k : Nat) : (beBytes n k).length = k := by
  induction k generalizing n with
  | zero => rfl
  | succ k ih => simp [beBytes, ih]

theorem beVal_append_single (l : List Nat) (b : Nat) :
    beVal (l ++ [b]) = beVal l * 256 + b := by
  simp [beVal, List.foldl_append]

theorem beVal_beBytes (n k : Nat) (h : n < 256 ^ k) :
    beVal (beBytes n k) = n := by
  induction k generalizing n with
  | zero =>
    have hn : n = 0 := by simpa using h
    simp [hn, beBytes, beVal]
  | succ k ih =>
    have hdiv : n / 256 < 256 ^ k := by
      have h256 : 0 < 256 := by norm_num
      rw [Nat.div_lt_iff_lt_mul h256]
      calc n < 256 ^ (k + 1) := h
        _ = 256 ^ k * 256 := by rw [pow_succ]
    have hmod := Nat.div_add_mod n 256
    calc beVal (beBytes n (k + 1))
        = beVal (beBytes (n / 256) k ++ [n % 256]) := rfl
      _ = beVal (beBytes (n / 256) k) * 256 + n % 256 := beVal_append_single _ _
      _ = n / 256 * 256 + n % 256 := by rw [ih _ hdiv]
      _ = n := by omega

theorem replayAll_mem (l : List interfaces.IMsg) (e : messages.Event)
    (he : e ∈ (messages.ReplayAll l).1) :
    ∃ i, e = messages.Event.replayed i := by
  induction l with
  | nil => simp [messages.ReplayAll] at he
  | cons pm rest ih =>
    cases hres : pm.followerResult with
    | none =>
      simp [messages.ReplayAll, hres] at he
      rcases he with he | he
      · exact ⟨pm.id, he⟩
      · exact ih he
    | some err =>
      simp [messages.ReplayAll, hres] at he
      exact ⟨pm.id, he⟩

theorem replayAll_ok (l : List interfaces.IMsg)
    (h : ∀ pm ∈ l, pm.followerResult = none) :
    messages.ReplayAll l
      = (l.map (fun pm => messages.Event.replayed pm.id),
         messages.ExecOutcome.ok) := by
  induction l with
  | nil => rfl
  | cons pm rest ih =>
    have h1 : pm.followerResult = none := h pm (by simp)
    have h2 : ∀ q ∈ rest, q.followerResult = none :=
      fun q hq => h q (by simp [hq])
    simp [messages.ReplayAll, h1, ih h2]

theorem replayAll_fatal (pre : List interfaces.IMsg)
    (bad : interfaces.IMsg) (post : List interfaces.IMsg) (e : String)
    (hpre : ∀ pm ∈ pre, pm.followerResult = none)
    (hbad : bad.followerResult = some e) :
    messages.ReplayAll (pre ++ bad :: post)
      = (pre.map (fun pm => messages.Event.replayed pm.id)
          ++ [messages.Event.replayed bad.id],
         messages.ExecOutcome.fatal ("Failed to build state in EOM: " ++ e)) := by
  induction pre with
  | nil => simp [messages.ReplayAll, hbad]
  | cons pm rest ih =>
    have h1 : pm.followerResult = none := hpre pm (by simp)
    have h2 : ∀ q ∈ rest, q.followerResult = none :=
      fun q hq => hpre q (by simp [hq])
    simp [messages.ReplayAll, h1, ih h2]

/-- C8: for every minute-close message and node state, `Validate` returns
`1`, `Leader` returns `false`, and `Follower` returns `true`. -/
theorem eom_role_dispatch (m : messages.EOM) (s : interfaces.IState) :
    m.Validate s = 1 ∧ m.Leader s = false ∧ m.Follower s = true :=
  ⟨rfl, rfl, rfl⟩

/-- C9: `NewEOM` does not set the timestamp to the creation time — it
leaves the timestamp at its zero value (no clock is consulted) and the
identity hash nil, so the required pre-signature payload of a freshly
constructed message cannot even be marshalled.  This contradicts the
spec's "timestamp: creation time, required", and the source's own comment
concedes the construction is incomplete. -/
theorem newEOM_ignores_creation_time (s : interfaces.IState) (minute : Int) :
    (messages.NewEOM s minute).Timestamp = ⟨0⟩
    ∧ (messages.NewEOM s minute).IdentityChainID = none
    ∧ (messages.NewEOM s minute).MarshalForSignature
        = Except.error "nil IdentityChainID" :=
  ⟨rfl, rfl, rfl⟩

/-- C5: `LeaderExecute` constructs a fresh directory-block-signature
message carrying the previous directory block's content key, signs it with
the node's key (the signature verifies against the message's canonical
payload), sends it exactly once to the outbound network queue and exactly
once to the node's own inbound queue, and returns no error. -/
theorem leaderExecute_self_delivery (m : messages.EOM)
    (s : interfaces.IState) :
    ∃ dbm : messages.DirectoryBlockSignature,
      m.LeaderExecute s
        = ([messages.Event.networkOut dbm, messages.Event.inMsg dbm],
           messages.ExecOutcome.ok)
      ∧ dbm.DirectoryBlockKeyMR = some s.PreviousDirectoryBlockKeyMR
      ∧ (∃ sg, dbm.Signature = some sg
          ∧ messages.VerifySig s.SigningKey dbm.MarshalForSignature sg = true)
      ∧ (m.LeaderExecute s).1.count (messages.Event.networkOut dbm) = 1
      ∧ (m.LeaderExecute s).1.count (messages.Event.inMsg dbm) = 1 := by
  refine ⟨_, rfl, rfl, ⟨_, rfl, ?_⟩, ?_, ?_⟩
  · simp [messages.VerifySig, messages.DirectoryBlockSignature.MarshalForSignature]
  · simp [messages.EOM.LeaderExecute, List.count_cons]
  · simp [messages.EOM.LeaderExecute, List.count_cons]

/-- C2: when every message in process-list slot 0 replays successfully,
`FollowerExecute` replays them in exactly their list order before
notifying the ledger that the minute ended; the first replay failure is
fatal — execution aborts at it, replaying nothing further and never
reaching the ledger notification. -/
theorem followerExecute_replay_order (m : messages.EOM)
    (s : interfaces.IState) :
    ((∀ pm ∈ s.ProcessListSlot0, pm.followerResult = none) →
      ∃ rest, (m.FollowerExecute s).1
        = s.ProcessListSlot0.map (fun pm => messages.Event.replayed pm.id)
          ++ messages.Event.endOfPeriod m.Minute :: rest)
    ∧ (∀ pre bad post e, s.ProcessListSlot0 = pre ++ bad :: post →
        (∀ pm ∈ pre, pm.followerResult = none) →
        bad.followerResult = some e →
        m.FollowerExecute s
          = (pre.map (fun pm => messages.Event.replayed pm.id)
              ++ [messages.Event.replayed bad.id],
             messages.ExecOutcome.fatal
               ("Failed to build state in EOM: " ++ e))) := by
  constructor
  · intro hall
    have hrep := replayAll_ok s.ProcessListSlot0 hall
    simp only [messages.EOM.FollowerExecute, hrep]
    repeat' split
    all_goals
      first
      | exact ⟨[], rfl⟩
      | exact ⟨_, List.append_assoc _ _ _⟩
  · intro pre bad post e hsplit hpre hbad
    have hrep := replayAll_fatal pre bad post e hpre hbad
    simp [messages.EOM.FollowerExecute, hsplit, hrep]

/-- C3: over executions of `FollowerExecute` that run to completion (a
fatal abort from a replay failure or a non-local network profile — the
subject of C2 and C4 — terminates the process before this step),
end-of-block processing runs exactly once when `minute = 9` and never
otherwise, and this same message is enqueued on the leader-input queue
exactly when `minute = 9` and the node is in server capacity. -/
theorem followerExecute_last_minute (m : messages.EOM)
    (s : interfaces.IState)
    (hok : (m.FollowerExecute s).2 = messages.ExecOutcome.ok) :
    ((m.FollowerExecute s).1.count messages.Event.processEndOfBlock
        = if m.Minute = 9 then 1 else 0)
    ∧ (messages.Event.leaderIn m ∈ (m.FollowerExecute s).1
        ↔ (m.Minute = 9 ∧ s.ServerState = constants.SERVER_MODE)) := by
  have hrep0 : messages.Event.processEndOfBlock
      ∉ (messages.ReplayAll s.ProcessListSlot0).1 := by
    intro hmem
    obtain ⟨i, hi⟩ := replayAll_mem _ _ hmem
    cases hi
  have hrepL : messages.Event.leaderIn m
      ∉ (messages.ReplayAll s.ProcessListSlot0).1 := by
    intro hmem
    obtain ⟨i, hi⟩ := replayAll_mem _ _ hmem
    cases hi
  have hc0 : (messages.ReplayAll s.ProcessListSlot0).1.count
      messages.Event.processEndOfBlock = 0 :=
    List.count_eq_zero.mpr hrep0
  cases hrep : (messages.ReplayAll s.ProcessListSlot0).2 with
  | fatal e => simp [messages.EOM.FollowerExecute, hrep] at hok
  | ok =>
    by_cases h0 : s.NetworkNumber = constants.NETWORK_MAIN
    · simp [messages.EOM.FollowerExecute, hrep, h0] at hok
    · by_cases h1 : s.NetworkNumber = constants.NETWORK_TEST
      · simp [messages.EOM.FollowerExecute, hrep, h0, h1] at hok
      · by_cases h2 : s.NetworkNumber = constants.NETWORK_LOCAL
        · by_cases h9 : m.Minute = 9
          · by_cases hsm : s.ServerState = constants.SERVER_MODE
            · constructor
              · simp [messages.EOM.FollowerExecute, hrep, h0, h1, h2, h9, hsm,
                  List.count_append, List.count_cons, hc0, constants.NETWORK_MAIN, constants.NETWORK_TEST, constants.NETWORK_LOCAL, constants.SERVER_MODE]
              · simp [messages.EOM.FollowerExecute, hrep, h0, h1, h2, h9, hsm,
                  hrepL, constants.NETWORK_MAIN, constants.NETWORK_TEST, constants.NETWORK_LOCAL, constants.SERVER_MODE]
            · simp only [constants.SERVER_MODE] at hsm
              constructor
              · simp [messages.EOM.FollowerExecute, hrep, h0, h1, h2, h9, hsm,
                  List.count_append, List.count_cons, hc0, constants.NETWORK_MAIN, constants.NETWORK_TEST, constants.NETWORK_LOCAL, constants.SERVER_MODE]
              · simp [messages.EOM.FollowerExecute, hrep, h0, h1, h2, h9, hsm,
                  hrepL, constants.NETWORK_MAIN, constants.NETWORK_TEST, constants.NETWORK_LOCAL, constants.SERVER_MODE]
          · constructor
            · simp [messages.EOM.FollowerExecute, hrep, h0, h1, h2, h9,
                List.count_append, List.count_cons, hc0, constants.NETWORK_MAIN, constants.NETWORK_TEST, constants.NETWORK_LOCAL, constants.SERVER_MODE]
            · simp [messages.EOM.FollowerExecute, hrep, h0, h1, h2, h9, hrepL,
                constants.NETWORK_MAIN, constants.NETWORK_TEST, constants.NETWORK_LOCAL, constants.SERVER_MODE]
        · simp [messages.EOM.FollowerExecute, hrep, h0, h1, h2] at hok

/-- C4: a non-local network profile (main, test, or any unrecognized
number) makes `FollowerExecute` fatal, never a silently-ignored no-op;
under the local profile the close-of-minute action is a no-op and
execution continues normally (completing whenever the replay phase
succeeds). -/
theorem followerExecute_network_profile (m : messages.EOM)
    (s : interfaces.IState) :
    (s.NetworkNumber ≠ constants.NETWORK_LOCAL →
      ∃ e, (m.FollowerExecute s).2 = messages.ExecOutcome.fatal e)
    ∧ (s.NetworkNumber = constants.NETWORK_LOCAL →
      (∀ pm ∈ s.ProcessListSlot0, pm.followerResult = none) →
      (m.FollowerExecute s).2 = messages.ExecOutcome.ok) := by
  constructor
  · intro hne
    cases hrep : (messages.ReplayAll s.ProcessListSlot0).2 with
    | fatal e => exact ⟨e, by simp [messages.EOM.FollowerExecute, hrep]⟩
    | ok =>
      by_cases h0 : s.NetworkNumber = constants.NETWORK_MAIN
      · exact ⟨"Not implemented yet",
          by simp [messages.EOM.FollowerExecute, hrep, h0]⟩
      · by_cases h1 : s.NetworkNumber = constants.NETWORK_TEST
        · exact ⟨"Not implemented yet",
            by simp [messages.EOM.FollowerExecute, hrep, h0, h1]⟩
        · exact ⟨"Not implemented yet: Network Number "
              ++ toString s.NetworkNumber,
            by simp [messages.EOM.FollowerExecute, hrep, h0, h1, hne]⟩
  · intro hl hall
    have hrep := replayAll_ok s.ProcessListSlot0 hall
    by_cases h9 : m.Minute = 9
    · by_cases hsm : s.ServerState = constants.SERVER_MODE
      · simp [messages.EOM.FollowerExecute, hrep, hl, h9, hsm,
          constants.NETWORK_LOCAL, constants.NETWORK_MAIN,
          constants.NETWORK_TEST]
      · simp [messages.EOM.FollowerExecute, hrep, hl, h9, hsm,
          constants.NETWORK_LOCAL, constants.NETWORK_MAIN,
          constants.NETWORK_TEST]
    · simp [messages.EOM.FollowerExecute, hrep, hl, h9,
        constants.NETWORK_LOCAL, constants.NETWORK_MAIN,
        constants.NETWORK_TEST]

theorem followerExecute_replay_order_witness :
    (∃ rest, (mEx.FollowerExecute sLocalEx).1
        = [messages.Event.replayed 1, messages.Event.replayed 2]
          ++ messages.Event.endOfPeriod 3 :: rest)
    ∧ mEx.FollowerExecute sBadReplayEx
        = ([messages.Event.replayed 1, messages.Event.replayed 3],
           messages.ExecOutcome.fatal "Failed to build state in EOM: boom") := by
  constructor
  · exact (followerExecute_replay_order mEx sLocalEx).1 (by decide)
  · exact (followerExecute_replay_order mEx sBadReplayEx).2
      [msgA] msgBad [msgB] "boom" rfl (by decide) rfl

theorem followerExecute_last_minute_witness :
    ((mNineEx.FollowerExecute sLocalEx).1.count
        messages.Event.processEndOfBlock = 1)
    ∧ (messages.Event.leaderIn mNineEx ∈ (mNineEx.FollowerExecute sLocalEx).1
        ↔ (mNineEx.Minute = 9
            ∧ sLocalEx.ServerState = constants.SERVER_MODE)) := by
  have h := followerExecute_last_minute mNineEx sLocalEx (by decide)
  exact ⟨by rw [h.1]; rfl, h.2⟩

theorem followerExecute_network_profile_witness :
    (∃ e, (mEx.FollowerExecute sMainEx).2 = messages.ExecOutcome.fatal e)
    ∧ (mEx.FollowerExecute sLocalEx).2 = messages.ExecOutcome.ok :=
  ⟨(followerExecute_network_profile mEx sMainEx).1 (by decide),
   (followerExecute_network_profile mEx sLocalEx).2 (by decide) (by decide)⟩

theorem timestamp_unmarshal_ok (d : List Nat) (t : primitives.Timestamp)
    (r : List Nat)
    (h : primitives.Timestamp.UnmarshalBinaryData d = Except.ok (t, r)) :
    6 ≤ d.length ∧ t = ⟨beVal (d.take 6)⟩ ∧ r = d.drop 6 := by
  unfold primitives.Timestamp.UnmarshalBinaryData at h
  split at h
  · exact absurd h (by simp)
  · rename_i hlen
    simp only [Except.ok.injEq, Prod.mk.injEq] at h
    exact ⟨by omega, h.1.symm, h.2.symm⟩

theorem hash_unmarshal_ok (d : List Nat) (hs : primitives.Hash)
    (r : List Nat)
    (h : primitives.Hash.UnmarshalBinaryData d = Except.ok (hs, r)) :
    32 ≤ d.length ∧ hs = ⟨d.take 32⟩ ∧ r = d.drop 32 := by
  unfold primitives.Hash.UnmarshalBinaryData at h
  split at h
  · exact absurd h (by simp)
  · rename_i hlen
    simp only [Except.ok.injEq, Prod.mk.injEq] at h
    exact ⟨by omega, h.1.symm, h.2.symm⟩

theorem signature_unmarshal_ok (d : List Nat) (sg : primitives.Signature)
    (r : List Nat)
    (h : primitives.Signature.UnmarshalBinaryData d = Except.ok (sg, r)) :
    96 ≤ d.length ∧ sg = ⟨d.take 96⟩ ∧ r = d.drop 96 := by
  unfold primitives.Signature.UnmarshalBinaryData at h
  split at h
  · exact absurd h (by simp)
  · rename_i hlen
    simp only [Except.ok.injEq, Prod.mk.injEq] at h
    exact ⟨by omega, h.1.symm, h.2.symm⟩

theorem unmarshal_ok_facts (data : List Nat) (m2 : messages.EOM)
    (r : List Nat)
    (hok : messages.EOM.UnmarshalBinaryData data = Except.ok (m2, r)) :
    r = data ∧ m2.Minute < 10 ∧ (data.length = 44 ∨ 140 ≤ data.length) := by
  unfold messages.EOM.UnmarshalBinaryData at hok
  split at hok
  · exact absurd hok (by simp)
  rename_i h1
  split at hok
  · exact absurd hok (by simp)
  rename_i ts nd1 heqts
  obtain ⟨hl6, -, hnd1⟩ := timestamp_unmarshal_ok _ _ _ heqts
  subst hnd1
  split at hok
  · exact absurd hok (by simp)
  rename_i h2
  split at hok
  · exact absurd hok (by simp)
  rename_i h3
  split at hok
  · exact absurd hok (by simp)
  rename_i h4
  split at hok
  · exact absurd hok (by simp)
  rename_i hsh nd4 heqh
  obtain ⟨hl32, -, hnd4⟩ := hash_unmarshal_ok _ _ _ heqh
  subst hnd4
  split at hok
  · split at hok
    · exact absurd hok (by simp)
    rename_i sg nd5 heqs
    obtain ⟨hl96, -, -⟩ := signature_unmarshal_ok _ _ _ heqs
    simp only [Except.ok.injEq, Prod.mk.injEq] at hok
    obtain ⟨hm2, hr⟩ := hok
    subst hm2
    refine ⟨hr.symm, by simpa using h3, Or.inr ?_⟩
    simp only [List.length_drop, List.length_tail] at hl6 hl32 hl96 ⊢
    omega
  · rename_i h5
    simp only [Except.ok.injEq, Prod.mk.injEq] at hok
    obtain ⟨hm2, hr⟩ := hok
    subst hm2
    refine ⟨hr.symm, by simpa using h3, Or.inl ?_⟩
    simp only [List.length_drop, List.length_tail] at hl6 hl32 h5 ⊢
    omega

theorem timestamp_unmarshal_payload (t : primitives.Timestamp)
    (R : List Nat) (hts : t.millis < 2 ^ 48) :
    primitives.Timestamp.UnmarshalBinaryData (beBytes t.millis 6 ++ R)
      = Except.ok (t, R) := by
  have h6 : (beBytes t.millis 6).length = 6 := beBytes_length _ _
  have hb : t.millis < 256 ^ 6 := by
    have h2 : (256 : Nat) ^ 6 = 2 ^ 48 := by norm_num
    omega
  unfold primitives.Timestamp.UnmarshalBinaryData
  rw [if_neg (by simp only [List.length_append, h6]; omega)]
  rw [List.take_left' h6, List.drop_left' h6, beVal_beBytes _ _ hb]

theorem hash_unmarshal_payload (h : primitives.Hash) (R : List Nat)
    (hlen : h.bytes.length = 32) :
    primitives.Hash.UnmarshalBinaryData (h.bytes ++ R) = Except.ok (h, R) := by
  unfold primitives.Hash.UnmarshalBinaryData
  rw [if_neg (by simp only [List.length_append, hlen]; omega)]
  rw [List.take_left' hlen, List.drop_left' hlen]

theorem signature_unmarshal_whole (sg : primitives.Signature)
    (hlen : sg.bytes.length = 96) :
    primitives.Signature.UnmarshalBinaryData sg.bytes = Except.ok (sg, []) := by
  unfold primitives.Signature.UnmarshalBinaryData
  rw [if_neg (by omega)]
  rw [List.take_of_length_le (by omega), List.drop_eq_nil_of_le (by omega)]

theorem unmarshal_payload (m : messages.EOM) (h : primitives.Hash)
    (pb extra : List Nat)
    (hts : m.Timestamp.millis < 2 ^ 48)
    (hmin : m.Minute ≤ 9)
    (hid : m.IdentityChainID = some h)
    (hlen : h.bytes.length = 32)
    (hht : m.DirectoryBlockHeight < 2 ^ 32)
    (hpb : m.MarshalForSignature = Except.ok pb) :
    messages.EOM.UnmarshalBinaryData (pb ++ extra)
      = if 0 < extra.length then
          match primitives.Signature.UnmarshalBinaryData extra with
          | Except.error e => Except.error e
          | Except.ok (sg, _) =>
            Except.ok ({ Timestamp := m.Timestamp, Minute := m.Minute,
                         DirectoryBlockHeight := m.DirectoryBlockHeight,
                         IdentityChainID := some h, Signature := some sg,
                         hash := none }, pb ++ extra)
        else
          Except.ok ({ Timestamp := m.Timestamp, Minute := m.Minute,
                       DirectoryBlockHeight := m.DirectoryBlockHeight,
                       IdentityChainID := some h, Signature := none,
                       hash := none }, pb ++ extra) := by
  have hm256 : m.Minute % 256 = m.Minute := Nat.mod_eq_of_lt (by omega)
  have hb4 : m.DirectoryBlockHeight < 256 ^ 4 := by
    have h2 : (256 : Nat) ^ 4 = 2 ^ 32 := by norm_num
    omega
  simp only [messages.EOM.MarshalForSignature, hid, Except.ok.injEq] at hpb
  subst hpb
  have hsplit : ([constants.EOM_MSG % 256] ++ m.Timestamp.MarshalBinary
      ++ [m.Minute % 256] ++ beBytes m.DirectoryBlockHeight 4
      ++ h.MarshalBinary) ++ extra
      = constants.EOM_MSG % 256
        :: (beBytes m.Timestamp.millis 6
            ++ (m.Minute % 256
                :: (beBytes m.DirectoryBlockHeight 4 ++ (h.bytes ++ extra)))) := by
    simp [primitives.Timestamp.MarshalBinary, primitives.Hash.MarshalBinary,
      List.append_assoc]
  rw [hsplit]
  have hts6 := timestamp_unmarshal_payload m.Timestamp
    (m.Minute % 256 :: (beBytes m.DirectoryBlockHeight 4 ++ (h.bytes ++ extra)))
    hts
  have hh32 := hash_unmarshal_payload h extra hlen
  have ht4 : (beBytes m.DirectoryBlockHeight 4 ++ (h.bytes ++ extra)).take 4
      = beBytes m.DirectoryBlockHeight 4 := List.take_left' (beBytes_length _ _)
  have hd4 : (beBytes m.DirectoryBlockHeight 4 ++ (h.bytes ++ extra)).drop 4
      = h.bytes ++ extra := List.drop_left' (beBytes_length _ _)
  have hbv : beVal (beBytes m.DirectoryBlockHeight 4) = m.DirectoryBlockHeight :=
    beVal_beBytes _ _ hb4
  have c1 : ¬ ((constants.EOM_MSG % 256
      :: (beBytes m.Timestamp.millis 6
          ++ (m.Minute % 256
              :: (beBytes m.DirectoryBlockHeight 4
                  ++ (h.bytes ++ extra))))).length < 1) := by simp
  have c2 : ¬ ((m.Minute % 256
      :: (beBytes m.DirectoryBlockHeight 4 ++ (h.bytes ++ extra))).length < 1) := by
    simp
  have c3 : ¬ (10 ≤ m.Minute) := by omega
  have c4 : ¬ ((beBytes m.DirectoryBlockHeight 4 ++ (h.bytes ++ extra)).length < 4) := by
    simp [beBytes_length]
  unfold messages.EOM.UnmarshalBinaryData
  rw [if_neg c1]
  simp only [List.drop_succ_cons, List.drop_zero]
  simp only [hts6]
  rw [if_neg c2]
  simp only [List.headD_cons, List.tail_cons]
  rw [hm256]
  rw [if_neg c3]
  rw [if_neg c4]
  rw [ht4, hbv, hd4]
  simp only [hh32]

/-- C1: round-trip — for a valid minute-close message (minute in `[0,9]`,
timestamp and identity hash marshal without error, height a `uint32`,
any attached signature well-formed, and any cached hash the hash of its
own payload), decoding the bytes produced by `MarshalBinary` with
`UnmarshalBinaryData` succeeds and yields a message whose timestamp,
minute, height, identity chain id and signature (present or absent) are
identical, and whose `GetHash` agrees with the original's. -/
theorem eom_marshal_roundtrip (m : messages.EOM) (h : primitives.Hash)
    (hts : m.Timestamp.millis < 2 ^ 48)
    (hmin : m.Minute ≤ 9)
    (hid : m.IdentityChainID = some h)
    (hlen : h.bytes.length = 32)
    (hht : m.DirectoryBlockHeight < 2 ^ 32)
    (hsig : ∀ sg, m.Signature = some sg → sg.bytes.length = 96)
    (hcache : ∀ hh d, m.hash = some hh →
      m.MarshalForSignature = Except.ok d → hh = primitives.Sha d) :
    ∃ enc m2, m.MarshalBinary = Except.ok enc
      ∧ messages.EOM.UnmarshalBinaryData enc = Except.ok (m2, enc)
      ∧ m2.Timestamp = m.Timestamp
      ∧ m2.Minute = m.Minute
      ∧ m2.DirectoryBlockHeight = m.DirectoryBlockHeight
      ∧ m2.IdentityChainID = m.IdentityChainID
      ∧ m2.Signature = m.Signature
      ∧ m2.GetHash = m.GetHash := by
  have hpb0 : m.MarshalForSignature = Except.ok
      ([constants.EOM_MSG % 256] ++ m.Timestamp.MarshalBinary
        ++ [m.Minute % 256] ++ beBytes m.DirectoryBlockHeight 4
        ++ h.MarshalBinary) := by
    simp [messages.EOM.MarshalForSignature, hid]
  obtain ⟨pb, hpb⟩ : ∃ pb, m.MarshalForSignature = Except.ok pb := ⟨_, hpb0⟩
  have hgh : ∀ sig2 : Option primitives.Signature,
      ({ Timestamp := m.Timestamp, Minute := m.Minute,
         DirectoryBlockHeight := m.DirectoryBlockHeight,
         IdentityChainID := some h, Signature := sig2,
         hash := none } : messages.EOM).GetHash = m.GetHash := by
    intro sig2
    have hmfs : ({ Timestamp := m.Timestamp, Minute := m.Minute,
                   DirectoryBlockHeight := m.DirectoryBlockHeight,
                   IdentityChainID := some h, Signature := sig2,
                   hash := none } : messages.EOM).MarshalForSignature
        = m.MarshalForSignature := by
      simp [messages.EOM.MarshalForSignature, hid]
    cases hc : m.hash with
    | none => simp [messages.EOM.GetHash, hc, hmfs]
    | some hh =>
      have hsha := hcache hh pb hc hpb
      simp [messages.EOM.GetHash, hc, hmfs, hpb, hsha]
  cases hsgc : m.Signature with
  | none =>
    have hdec := unmarshal_payload m h pb [] hts hmin hid hlen hht hpb
    rw [List.append_nil] at hdec
    rw [if_neg (by simp)] at hdec
    refine ⟨pb, _, ?_, hdec, rfl, rfl, rfl, hid.symm, rfl, hgh none⟩
    simp [messages.EOM.MarshalBinary, hpb, messages.EOM.GetSignature, hsgc]
  | some sg =>
    have h96 := hsig sg hsgc
    have hdec := unmarshal_payload m h pb sg.bytes hts hmin hid hlen hht hpb
    rw [if_pos (by omega)] at hdec
    rw [signature_unmarshal_whole sg h96] at hdec
    simp only [] at hdec
    refine ⟨pb ++ sg.bytes, _, ?_, hdec, rfl, rfl, rfl, hid.symm, rfl,
      hgh (some sg)⟩
    simp [messages.EOM.MarshalBinary, hpb, messages.EOM.GetSignature, hsgc,
      primitives.Signature.MarshalBinary]

theorem eom_marshal_roundtrip_witness :
    ∃ enc m2, mSigEx.MarshalBinary = Except.ok enc
      ∧ messages.EOM.UnmarshalBinaryData enc = Except.ok (m2, enc)
      ∧ m2.Timestamp = mSigEx.Timestamp
      ∧ m2.Minute = mSigEx.Minute
      ∧ m2.DirectoryBlockHeight = mSigEx.DirectoryBlockHeight
      ∧ m2.IdentityChainID = mSigEx.IdentityChainID
      ∧ m2.Signature = mSigEx.Signature
      ∧ m2.GetHash = mSigEx.GetHash :=
  eom_marshal_roundtrip mSigEx hEx (by decide) (by decide) rfl (by decide)
    (by decide) (fun sg hsg => by cases Option.some.inj hsg; decide)
    (fun hh d hcc _ => Option.noConfusion hcc)

/-- C6: a payload whose minute byte is 10 or greater fails to decode with
the out-of-range error (no message is produced), and consequently every
minute-close message produced by a successful decode has its minute in
`[0, 10)`. -/
theorem unmarshal_minute_range :
    (∀ b0 t1 t2 t3 t4 t5 t6 mb rest, 10 ≤ mb →
      messages.EOM.UnmarshalBinaryData
          (b0 :: t1 :: t2 :: t3 :: t4 :: t5 :: t6 :: mb :: rest)
        = Except.error "Minute number is out of range")
    ∧ (∀ data m2 r,
        messages.EOM.UnmarshalBinaryData data = Except.ok (m2, r) →
        m2.Minute < 10) := by
  constructor
  · intro b0 t1 t2 t3 t4 t5 t6 mb rest h10
    have hts : primitives.Timestamp.UnmarshalBinaryData
        (t1 :: t2 :: t3 :: t4 :: t5 :: t6 :: mb :: rest)
        = Except.ok (⟨beVal [t1, t2, t3, t4, t5, t6]⟩, mb :: rest) := by
      unfold primitives.Timestamp.UnmarshalBinaryData
      rw [if_neg (by simp only [List.length_cons]; omega)]
      simp
    unfold messages.EOM.UnmarshalBinaryData
    rw [if_neg (by simp only [List.length_cons]; omega)]
    simp only [List.drop_succ_cons, List.drop_zero]
    simp only [hts]
    rw [if_neg (by simp only [List.length_cons]; omega)]
    simp only [List.headD_cons]
    rw [if_pos h10]
  · intro data m2 r hok
    exact (unmarshal_ok_facts data m2 r hok).2.1

theorem unmarshal_minute_range_witness :
    messages.EOM.UnmarshalBinaryData [0, 0, 0, 0, 0, 0, 0, 10]
      = Except.error "Minute number is out of range"
    ∧ mEx.Minute < 10 :=
  ⟨(unmarshal_minute_range).1 0 0 0 0 0 0 0 10 [] (by decide),
   (unmarshal_minute_range).2 pbEx mEx pbEx rfl⟩

set_option maxRecDepth 8000 in
/-- C7 counterexample: not every strict prefix of a valid encoded message
fails to decode.  For the concrete signed message `mSigEx`, truncating its
140-byte encoding at the payload/signature boundary (44 bytes) yields a
strict prefix that `UnmarshalBinaryData` decodes successfully (as the
unsigned message), where the claim demands an error at every truncation
point. -/
theorem unmarshal_truncation_cex :
    mSigEx.MarshalBinary = Except.ok encSigEx
    ∧ 44 < encSigEx.length
    ∧ exceptIsOk (messages.EOM.UnmarshalBinaryData (encSigEx.take 44)) = true :=
  ⟨rfl, by decide, by decide⟩

/-- C7 (amended): decoding is total — modelled index faults are returned
as errors — and for a valid message every strict prefix of its encoding
fails to decode, with the single exception of a signed message truncated
exactly at the payload/signature boundary (44 bytes in this model), which
decodes successfully as the unsigned message. -/
theorem unmarshal_truncation (m : messages.EOM) (h : primitives.Hash)
    (enc : List Nat)
    (hts : m.Timestamp.millis < 2 ^ 48)
    (hmin : m.Minute ≤ 9)
    (hid : m.IdentityChainID = some h)
    (hlen : h.bytes.length = 32)
    (hht : m.DirectoryBlockHeight < 2 ^ 32)
    (hsig : ∀ sg, m.Signature = some sg → sg.bytes.length = 96)
    (henc : m.MarshalBinary = Except.ok enc) :
    (∀ k, k < enc.length → k ≠ 44 →
      ∃ e, messages.EOM.UnmarshalBinaryData (enc.take k) = Except.error e)
    ∧ (44 < enc.length →
      exceptIsOk (messages.EOM.UnmarshalBinaryData (enc.take 44)) = true) := by
  have hpb0 : m.MarshalForSignature = Except.ok
      ([constants.EOM_MSG % 256] ++ m.Timestamp.MarshalBinary
        ++ [m.Minute % 256] ++ beBytes m.DirectoryBlockHeight 4
        ++ h.MarshalBinary) := by
    simp [messages.EOM.MarshalForSignature, hid]
  have hpblen0 : ([constants.EOM_MSG % 256] ++ m.Timestamp.MarshalBinary
      ++ [m.Minute % 256] ++ beBytes m.DirectoryBlockHeight 4
      ++ h.MarshalBinary).length = 44 := by
    simp [primitives.Timestamp.MarshalBinary, primitives.Hash.MarshalBinary,
      beBytes_length, hlen]
  obtain ⟨pb, hpb, hpblen⟩ :
      ∃ pb, m.MarshalForSignature = Except.ok pb ∧ pb.length = 44 :=
    ⟨_, hpb0, hpblen0⟩
  have hdecpb : exceptIsOk (messages.EOM.UnmarshalBinaryData pb) = true := by
    have hdec := unmarshal_payload m h pb [] hts hmin hid hlen hht hpb
    rw [List.append_nil] at hdec
    rw [if_neg (by simp)] at hdec
    rw [hdec]
    rfl
  cases hsgc : m.Signature with
  | none =>
    simp only [messages.EOM.MarshalBinary, hpb, messages.EOM.GetSignature,
      hsgc, Except.ok.injEq] at henc
    subst henc
    constructor
    · intro k hk hk44
      cases hdec : messages.EOM.UnmarshalBinaryData (pb.take k) with
      | error e => exact ⟨e, rfl⟩
      | ok v =>
        obtain ⟨m2, r⟩ := v
        have hfacts := (unmarshal_ok_facts _ _ _ hdec).2.2
        have hlenk : (pb.take k).length = k := by
          rw [List.length_take]
          omega
        rw [hlenk] at hfacts
        rcases hfacts with h44 | h140 <;> omega
    · intro h44
      omega
  | some sg =>
    have h96 := hsig sg hsgc
    simp only [messages.EOM.MarshalBinary, hpb, messages.EOM.GetSignature,
      hsgc, primitives.Signature.MarshalBinary, Except.ok.injEq] at henc
    subst henc
    have hfull : (pb ++ sg.bytes).length = 140 := by
      simp [List.length_append, hpblen, h96]
    constructor
    · intro k hk hk44
      cases hdec : messages.EOM.UnmarshalBinaryData ((pb ++ sg.bytes).take k) with
      | error e => exact ⟨e, rfl⟩
      | ok v =>
        obtain ⟨m2, r⟩ := v
        have hfacts := (unmarshal_ok_facts _ _ _ hdec).2.2
        have hlenk : ((pb ++ sg.bytes).take k).length = k := by
          rw [List.length_take]
          omega
        rw [hlenk] at hfacts
        rcases hfacts with h44 | h140 <;> omega
    · intro _
      rw [List.take_left' hpblen]
      exact hdecpb

theorem unmarshal_truncation_witness :
    (∃ e, messages.EOM.UnmarshalBinaryData (encSigEx.take 10)
        = Except.error e)
    ∧ exceptIsOk (messages.EOM.UnmarshalBinaryData (encSigEx.take 44)) = true := by
  have h := unmarshal_truncation mSigEx hEx encSigEx (by decide) (by decide)
    rfl (by decide) (by decide)
    (fun sg hsg => by cases Option.some.inj hsg; decide) rfl
  exact ⟨h.1 10 (by decide) (by decide), h.2 (by decide)⟩

/-- C10: when `UnmarshalBinaryData` succeeds, the byte-slice value it
returns is the entire original input (`return data, nil` in the source),
not the unconsumed remainder after the parsed message. -/
theorem unmarshal_returns_original (data : List Nat) (m2 : messages.EOM)
    (r : List Nat)
    (hok : messages.EOM.UnmarshalBinaryData data = Except.ok (m2, r)) :
    r = data :=
  (unmarshal_ok_facts data m2 r hok).1

set_option maxRecDepth 8000 in
theorem unmarshal_returns_original_witness :
    messages.EOM.UnmarshalBinaryData dataJunkEx
      = Except.ok (mSigEx, dataJunkEx)
    ∧ dataJunkEx = dataJunkEx :=
  ⟨rfl, unmarshal_returns_original dataJunkEx mSigEx dataJunkEx rfl⟩
